import Mathlib

/-!
Shallow embedding of the diarization-service core (job store, pipeline
orchestrator, alignment engine) and proofs about it.

Time stamps and segment boundaries are modelled as rationals (`ℚ`);
Python dicts keyed by job id are modelled as insertion-ordered
association lists; Python exceptions are modelled by `Except`.
-/

namespace DiarizationCore

/-- A word-level sub-segment as produced by the transcription engine
(`transcription.py`: start, end, word, probability). -/
structure Word where
  start : ℚ
  «end» : ℚ
  word : String
  probability : ℚ
deriving DecidableEq, Repr

/-- A transcript segment (`transcription.py`): timing, text and word list. -/
structure TranscriptSeg where
  start : ℚ
  «end» : ℚ
  text : String
  words : List Word
deriving DecidableEq, Repr

/-- A diarization segment (`diarization.py`): timing plus speaker label. -/
structure DiarSeg where
  start : ℚ
  «end» : ℚ
  speaker : String
deriving DecidableEq, Repr

/-- An aligned segment (`alignment.py`): timing, speaker label, text, words. -/
structure AlignedSeg where
  start : ℚ
  «end» : ℚ
  speaker : String
  text : String
  words : List Word
deriving DecidableEq, Repr

/-- Temporal overlap used in `align_transcript_with_speakers`
(`alignment.py` lines 42–44): `max(0, min(t.end, d.end) - max(t.start, d.start))`. -/
def overlapQ (t : TranscriptSeg) (d : DiarSeg) : ℚ :=
  max 0 (min t.«end» d.«end» - max t.start d.start)

/-- The best-overlap selection loop of `align_transcript_with_speakers`
(`alignment.py` lines 34–48): the accumulator is
`(best_speaker, best_overlap)`, initially `(None, 0)`, updated whenever
`overlap > best_overlap`. -/
def bestFold (t : TranscriptSeg) : List DiarSeg → Option String × ℚ → Option String × ℚ
  | [], acc => acc
  | d :: rest, acc =>
      bestFold t rest (if acc.2 < overlapQ t d then (some d.speaker, overlapQ t d) else acc)

/-- The `best_speaker` value after the overlap loop (`alignment.py` lines 34–48). -/
def bestSpeakerOf (t : TranscriptSeg) (ds : List DiarSeg) : Option String :=
  (bestFold t ds (none, 0)).1

/-- The midpoint fallback of `align_transcript_with_speakers`
(`alignment.py` lines 51–55): first diarization segment whose interval
contains the transcript midpoint. -/
def midSpeaker (t : TranscriptSeg) (ds : List DiarSeg) : Option String :=
  (ds.find? (fun d =>
    decide (d.start ≤ (t.start + t.«end») / 2) && decide ((t.start + t.«end») / 2 ≤ d.«end»))).map
    (·.speaker)

/-- Python's `x or default` applied to an optional string: `None` and the
empty string are falsy (`alignment.py` line 61: `best_speaker or "UNKNOWN"`). -/
def pyOrElse (a : Option String) (dflt : String) : String :=
  match a with
  | none => dflt
  | some s => if s = "" then dflt else s

/-- The speaker assigned to one transcript segment by Phase A
(`alignment.py` lines 34–61): overlap loop, then midpoint fallback when the
loop found nothing, then the `or "UNKNOWN"` sentinel. -/
def assignSpeaker (t : TranscriptSeg) (ds : List DiarSeg) : String :=
  pyOrElse
    (match bestSpeakerOf t ds with
     | some s => some s
     | none => midSpeaker t ds)
    "UNKNOWN"

/-- The aligned segment built for one transcript segment
(`alignment.py` lines 57–65). -/
def alignOne (t : TranscriptSeg) (ds : List DiarSeg) : AlignedSeg :=
  { start := t.start
    «end» := t.«end»
    speaker := assignSpeaker t ds
    text := t.text
    words := t.words }

/-- Phase A of `align_transcript_with_speakers` (`alignment.py` lines 22–65):
the early-return guard on empty inputs followed by the per-transcript-segment
assignment loop. -/
def alignPhaseA (ts : List TranscriptSeg) (ds : List DiarSeg) : List AlignedSeg :=
  if ts = [] ∨ ds = [] then []
  else ts.map (fun t => alignOne t ds)

/-- The accumulator loop of `merge_consecutive_speaker_segments`
(`alignment.py` lines 90–111): `current` is the accumulator, merged into when
the next segment has the same speaker and a gap of at most `max_gap`. -/
def mergeLoop (max_gap : ℚ) (current : AlignedSeg) : List AlignedSeg → List AlignedSeg
  | [] => [current]
  | seg :: rest =>
      if seg.speaker = current.speaker ∧ seg.start - current.«end» ≤ max_gap then
        mergeLoop max_gap
          { current with
            «end» := seg.«end»
            text := current.text ++ " " ++ seg.text
            words := current.words ++ seg.words } rest
      else
        current :: mergeLoop max_gap seg rest

/-- `merge_consecutive_speaker_segments` (`alignment.py` lines 73–111);
the source's default for `max_gap` is `1.0`. -/
def merge_consecutive_speaker_segments (segments : List AlignedSeg) (max_gap : ℚ) :
    List AlignedSeg :=
  match segments with
  | [] => []
  | s :: rest => mergeLoop max_gap s rest

/-- `align_transcript_with_speakers` (`alignment.py` lines 6–70): Phase A
followed by the consecutive-same-speaker merge with the default gap `1.0`. -/
def align_transcript_with_speakers (ts : List TranscriptSeg) (ds : List DiarSeg) :
    List AlignedSeg :=
  merge_consecutive_speaker_segments (alignPhaseA ts ds) 1

/-- Python's `" ".join` on a list of strings. -/
def joinSpace : List String → String
  | [] => ""
  | [a] => a
  | a :: rest => a ++ " " ++ joinSpace rest

/-! ## Job queue model (`queue.py`) -/

/-- `JobStatus` (`queue.py` lines 14–20). -/
inductive JobStatus where
  | pending
  | processing
  | completed
  | failed
deriving DecidableEq, Repr

/-- The per-segment record placed into the result (`worker.py` lines 100–108). -/
structure SegOut where
  start : ℚ
  «end» : ℚ
  speaker : String
  text : String
deriving DecidableEq, Repr

/-- The result payload assembled by `process_job` (`worker.py` lines 98–112).
Embeddings are a mapping from speaker label to a vector. -/
structure ResultRecord where
  recording_id : String
  segments : List SegOut
  speaker_count : ℕ
  embeddings : List (String × List ℚ)
  full_transcript : String
deriving DecidableEq, Repr

/-- `Job` (`queue.py` lines 23–36). Timestamps are opaque strings supplied
by the caller of each operation (`datetime.utcnow().isoformat()` in the source). -/
structure Job where
  id : String
  recording_id : String
  audio_url : String
  callback_url : String
  status : JobStatus
  result : Option ResultRecord
  error : Option String
  created_at : String
  started_at : Option String
  completed_at : Option String
deriving DecidableEq, Repr

/-- A fresh `Job` as built by `add_job` (`queue.py` lines 59–64 / 127–132):
status `pending`, no result, no error, no start/completion timestamps. -/
def newJob (id recording_id audio_url callback_url created_at : String) : Job :=
  { id := id
    recording_id := recording_id
    audio_url := audio_url
    callback_url := callback_url
    status := JobStatus.pending
    result := none
    error := none
    created_at := created_at
    started_at := none
    completed_at := none }

/-- An insertion-ordered map from job id to job, modelling both the Python
dict of `InMemoryQueue.jobs` and the key-value records of `RedisQueue`. -/
abbrev JobMap := List (String × Job)

/-- Dict lookup (`jobs.get(job_id)` / `redis.get`): first entry with the key. -/
def lookupJob (st : JobMap) (id : String) : Option Job :=
  match st with
  | [] => none
  | (k, j) :: rest => if k = id then some j else lookupJob rest id

/-- Dict assignment (`jobs[id] = job` / `redis.set`): replace the entry in
place when the key is present, else append at the end (Python dict /
key-value store semantics). -/
def dictSet (st : JobMap) (id : String) (j : Job) : JobMap :=
  match st with
  | [] => [(id, j)]
  | (k, j0) :: rest => if k = id then (k, j) :: rest else (k, j0) :: dictSet rest id j

/-- The field mutations of `update_job`, identical in the two implementations
(`queue.py` lines 95–107 and 172–183): a `processing` status stamps
`started_at`, a `completed`/`failed` status stamps `completed_at`, and the
`result`/`error` fields are overwritten only when given. -/
def applyUpdate (now : String) (job : Job) (status : Option JobStatus)
    (result : Option ResultRecord) (error : Option String) : Job :=
  let job1 :=
    match status with
    | none => job
    | some s =>
        let j := { job with status := s }
        if s = JobStatus.processing then { j with started_at := some now }
        else if s = JobStatus.completed ∨ s = JobStatus.failed then
          { j with completed_at := some now }
        else j
  let job2 :=
    match result with
    | none => job1
    | some r => { job1 with result := some r }
  match error with
  | none => job2
  | some e => { job2 with error := some e }

/-- `InMemoryQueue.add_job` (`queue.py` lines 52–69); the fresh uuid and the
creation time are passed in. -/
def inMem_add_job (st : JobMap) (id recording_id audio_url callback_url now : String) :
    JobMap :=
  dictSet st id (newJob id recording_id audio_url callback_url now)

/-- `InMemoryQueue.get_next_pending` (`queue.py` lines 75–81): the first job
in insertion order whose status is `pending`; the store is not modified. -/
def inMem_get_next_pending (st : JobMap) : Option Job :=
  match st with
  | [] => none
  | (_, j) :: rest =>
      if j.status = JobStatus.pending then some j else inMem_get_next_pending rest

/-- `InMemoryQueue.update_job` (`queue.py` lines 83–107): look the job up by
id; when absent, return with no change; otherwise mutate it in place. -/
def inMem_update_job (now : String) (st : JobMap) (id : String)
    (status : Option JobStatus) (result : Option ResultRecord) (error : Option String) :
    JobMap :=
  match lookupJob st id with
  | none => st
  | some job => dictSet st id (applyUpdate now job status result error)

/-- `RedisQueue` state: the serialized job records plus the pending FIFO list
of job ids (`queue.py` lines 113–118). -/
structure RedisState where
  kv : JobMap
  queue : List String
deriving DecidableEq, Repr

/-- `RedisQueue.add_job` (`queue.py` lines 120–140): store the record and
`rpush` the id onto the queue. -/
def redis_add_job (st : RedisState) (id recording_id audio_url callback_url now : String) :
    RedisState :=
  { kv := dictSet st.kv id (newJob id recording_id audio_url callback_url now)
    queue := st.queue ++ [id] }

/-- `RedisQueue.get_next_pending` (`queue.py` lines 152–158): `lpop` the first
id off the queue, then fetch that job record. -/
def redis_get_next_pending (st : RedisState) : Option Job × RedisState :=
  match st.queue with
  | [] => (none, st)
  | id :: rest => (lookupJob st.kv id, { st with queue := rest })

/-- `RedisQueue.update_job` (`queue.py` lines 160–185): fetch the record;
when absent, return with no change; otherwise apply the field mutations and
write the record back under `job.id`. -/
def redis_update_job (now : String) (st : RedisState) (id : String)
    (status : Option JobStatus) (result : Option ResultRecord) (error : Option String) :
    RedisState :=
  match lookupJob st.kv id with
  | none => st
  | some job =>
      { st with kv := dictSet st.kv job.id (applyUpdate now job status result error) }

/-! ## Operation traces over the two job stores -/

/-- One JobStore operation; `add` carries the fresh uuid and each mutating
operation carries the wall-clock time it runs at. -/
inductive QOp where
  | add (id recording_id audio_url callback_url now : String)
  | update (id : String) (status : Option JobStatus) (result : Option ResultRecord)
      (error : Option String) (now : String)
  | next
deriving DecidableEq, Repr

/-- The ids inserted by `add` operations in a trace. -/
def addIds : List QOp → List String
  | [] => []
  | QOp.add id _ _ _ _ :: rest => id :: addIds rest
  | _ :: rest => addIds rest

/-- One step of the in-memory store; `next` reports the job it returned. -/
def inMemStep (st : JobMap) : QOp → JobMap × Option Job
  | QOp.add id r u c n => (inMem_add_job st id r u c n, none)
  | QOp.update id s r e n => (inMem_update_job n st id s r e, none)
  | QOp.next => (st, inMem_get_next_pending st)

/-- Run a trace on the in-memory store, collecting one output per operation. -/
def inMemRun (st : JobMap) : List QOp → JobMap × List (Option Job)
  | [] => (st, [])
  | op :: rest =>
      let (st1, out) := inMemStep st op
      let (st2, outs) := inMemRun st1 rest
      (st2, out :: outs)

/-- One step of the Redis-backed store; `next` reports the job it returned. -/
def redisStep (st : RedisState) : QOp → RedisState × Option Job
  | QOp.add id r u c n => (redis_add_job st id r u c n, none)
  | QOp.update id s r e n => (redis_update_job n st id s r e, none)
  | QOp.next =>
      let (j, st1) := redis_get_next_pending st
      (st1, j)

/-- Run a trace on the Redis-backed store, collecting one output per operation. -/
def redisRun (st : RedisState) : List QOp → RedisState × List (Option Job)
  | [] => (st, [])
  | op :: rest =>
      let (st1, out) := redisStep st op
      let (st2, outs) := redisRun st1 rest
      (st2, out :: outs)

/-- The ids of the jobs actually returned by `next` operations in a run. -/
def outIds (outs : List (Option Job)) : List String :=
  outs.filterMap (fun o => o.map (·.id))

/-! ## Pipeline orchestrator model (`worker.py`) -/

/-- A Python exception as observed by `process_job`: class name, `str(e)`,
and the traceback text interpolated into the error message. -/
structure PyErr where
  name : String
  msg : String
  tb : String
deriving DecidableEq, Repr

/-- The error string recorded on a failed job (`worker.py` line 123):
`f"\x7btype(e).__name__\x7d: \x7bstr(e)\x7d\n\x7btraceback.format_exc()\x7d"`. -/
def errorMsgOf (e : PyErr) : String :=
  e.name ++ ": " ++ e.msg ++ "\n" ++ e.tb

/-- The payload of a webhook: either the success result record or the failure
dict `\x7b"error": str(e), "recording_id": ...\x7d` (`worker.py` lines 118, 130–135). -/
inductive HookData where
  | success (r : ResultRecord)
  | failure (error : String) (recording_id : String)
deriving DecidableEq, Repr

/-- One attempted webhook call (`worker.py` `send_webhook`); delivery itself
is best-effort and swallowed, so only the attempt is recorded. -/
structure Webhook where
  callback_url : String
  job_id : String
  success : Bool
  data : HookData
deriving DecidableEq, Repr

/-- The outcomes of the fallible external stages invoked by `process_job`:
audio download, diarization, transcription, embedding extraction. -/
structure PipelineEnv where
  download : Except PyErr String
  diarize : Except PyErr (List DiarSeg)
  transcribe : Except PyErr (List TranscriptSeg)
  extract : Except PyErr (List (String × List ℚ))
deriving Repr

/-- The `except` branch of `process_job` (`worker.py` lines 122–137): mark the
job failed with the formatted error, attempt the failure webhook, re-raise. -/
def failPath (e : PyErr) (now : String) (q : JobMap) (job : Job) :
    Except PyErr ResultRecord × JobMap × List Webhook :=
  let q2 := inMem_update_job now q job.id (some JobStatus.failed) none (some (errorMsgOf e))
  (Except.error e, q2,
    [{ callback_url := job.callback_url
       job_id := job.id
       success := false
       data := HookData.failure e.msg job.recording_id }])

/-- `process_job` (`worker.py` lines 47–142) over the in-memory store:
mark processing, run download → diarization → speaker count → transcription
→ alignment → embedding extraction, assemble the result, mark completed and
attempt the success webhook; any stage failure takes `failPath`. Returns the
`return`/`raise` outcome, the final store, and the webhooks attempted. -/
def process_job (env : PipelineEnv) (now : String) (q : JobMap) (job : Job) :
    Except PyErr ResultRecord × JobMap × List Webhook :=
  let q1 := inMem_update_job now q job.id (some JobStatus.processing) none none
  match env.download with
  | Except.error e => failPath e now q1 job
  | Except.ok _ =>
    match env.diarize with
    | Except.error e => failPath e now q1 job
    | Except.ok dsegs =>
      let speaker_count := (dsegs.map (·.speaker)).dedup.length
      match env.transcribe with
      | Except.error e => failPath e now q1 job
      | Except.ok tsegs =>
        let aligned := align_transcript_with_speakers tsegs dsegs
        match env.extract with
        | Except.error e => failPath e now q1 job
        | Except.ok emb =>
          let result : ResultRecord :=
            { recording_id := job.recording_id
              segments := aligned.map (fun s =>
                { start := s.start, «end» := s.«end», speaker := s.speaker, text := s.text })
              speaker_count := speaker_count
              embeddings := emb
              full_transcript := joinSpace (aligned.map (·.text)) }
          let q2 := inMem_update_job now q1 job.id (some JobStatus.completed) (some result) none
          (Except.ok result, q2,
            [{ callback_url := job.callback_url
               job_id := job.id
               success := true
               data := HookData.success result }])

/-! ## Helper lemmas -/

/-- Looking an id up right after `dictSet` on that id yields the stored job. -/
theorem lookupJob_dictSet_self (st : JobMap) (k : String) (v : Job) :
    lookupJob (dictSet st k v) k = some v := by
  induction st with
  | nil => simp [dictSet, lookupJob]
  | cons p rest ih =>
    obtain ⟨k0, j0⟩ := p
    by_cases h : k0 = k
    · simp [dictSet, lookupJob, h]
    · simp [dictSet, lookupJob, h, ih]

/-- Phase A is the per-segment map whenever the diarization list is non-empty. -/
theorem alignPhaseA_eq_map (ts : List TranscriptSeg) (ds : List DiarSeg) (hne : ds ≠ []) :
    alignPhaseA ts ds = ts.map (fun t => alignOne t ds) := by
  unfold alignPhaseA
  rcases ts with _ | ⟨t, ts'⟩
  · simp
  · simp [hne]

/-! ## Claims C2 and C3: Phase A cardinality and the empty-diarization guard -/

/-- Claim C2, counterexample: a single valid transcript segment together with
an empty diarization list makes Phase A return zero aligned segments, not one
per transcript segment, because of the early-return guard. -/
theorem C2_counterexample :
    (∀ t ∈ [(⟨0, 1, "hello", []⟩ : TranscriptSeg)], t.start ≤ t.«end») ∧
    (∀ d ∈ ([] : List DiarSeg), d.start ≤ d.«end») ∧
    (alignPhaseA [⟨0, 1, "hello", []⟩] []).length = 0 ∧
    ([(⟨0, 1, "hello", []⟩ : TranscriptSeg)]).length = 1 := by
  refine ⟨?_, ?_, rfl, rfl⟩ <;> decide

/-- Claim C2 (amended): for valid inputs with a NON-EMPTY diarization list,
Phase A returns exactly one aligned segment per transcript segment, in
transcript order, carrying that segment's start, end, text and word list. -/
theorem C2_phaseA_one_output_per_segment (ts : List TranscriptSeg) (ds : List DiarSeg)
    (hts : ∀ t ∈ ts, t.start ≤ t.«end») (hds : ∀ d ∈ ds, d.start ≤ d.«end»)
    (hne : ds ≠ []) :
    (alignPhaseA ts ds).length = ts.length ∧
    (alignPhaseA ts ds).map AlignedSeg.start = ts.map TranscriptSeg.start ∧
    (alignPhaseA ts ds).map AlignedSeg.«end» = ts.map TranscriptSeg.«end» ∧
    (alignPhaseA ts ds).map AlignedSeg.text = ts.map TranscriptSeg.text ∧
    (alignPhaseA ts ds).map AlignedSeg.words = ts.map TranscriptSeg.words := by
  rw [alignPhaseA_eq_map ts ds hne]
  refine ⟨by simp, ?_, ?_, ?_, ?_⟩ <;>
    simp [List.map_map, Function.comp_def, alignOne]

/-- Witness for C2: a concrete valid transcript/diarization pair. -/
theorem C2_witness :
    (alignPhaseA [⟨0, 1, "hi", []⟩] [⟨0, 1, "A"⟩]).length =
        ([(⟨0, 1, "hi", []⟩ : TranscriptSeg)]).length ∧
    (alignPhaseA [⟨0, 1, "hi", []⟩] [⟨0, 1, "A"⟩]).map AlignedSeg.start =
        [(⟨0, 1, "hi", []⟩ : TranscriptSeg)].map TranscriptSeg.start ∧
    (alignPhaseA [⟨0, 1, "hi", []⟩] [⟨0, 1, "A"⟩]).map AlignedSeg.«end» =
        [(⟨0, 1, "hi", []⟩ : TranscriptSeg)].map TranscriptSeg.«end» ∧
    (alignPhaseA [⟨0, 1, "hi", []⟩] [⟨0, 1, "A"⟩]).map AlignedSeg.text =
        [(⟨0, 1, "hi", []⟩ : TranscriptSeg)].map TranscriptSeg.text ∧
    (alignPhaseA [⟨0, 1, "hi", []⟩] [⟨0, 1, "A"⟩]).map AlignedSeg.words =
        [(⟨0, 1, "hi", []⟩ : TranscriptSeg)].map TranscriptSeg.words :=
  C2_phaseA_one_output_per_segment [⟨0, 1, "hi", []⟩] [⟨0, 1, "A"⟩]
    (by decide) (by decide) (by decide)

/-- Claim C3, counterexample: with an empty diarization list and one
transcript segment, Phase A returns the empty list — it does NOT produce an
UNKNOWN-labelled segment per transcript segment. -/
theorem C3_counterexample :
    alignPhaseA [⟨0, 1, "hello", []⟩] [] = [] ∧
    (alignPhaseA [⟨0, 1, "hello", []⟩] []).map AlignedSeg.speaker ≠ ["UNKNOWN"] := by
  exact ⟨rfl, by decide⟩

/-- Claim C3 (amended): if the diarization segment list is empty, the
early-return guard makes Phase A — and the whole alignment — return the empty
list for every transcript input, producing no segments at all. -/
theorem C3_empty_diarization_returns_empty (ts : List TranscriptSeg) :
    alignPhaseA ts [] = [] ∧ align_transcript_with_speakers ts [] = [] := by
  constructor
  · simp [alignPhaseA]
  · simp [align_transcript_with_speakers, alignPhaseA, merge_consecutive_speaker_segments]

/-! ## Claim C6: merge gap boundary -/

/-- Claim C6: two adjacent same-speaker segments whose gap is exactly
`max_gap` are merged (end extended, texts joined with one space, word lists
concatenated); with gap strictly greater than `max_gap` they stay separate. -/
theorem C6_merge_gap_boundary (a b : AlignedSeg) (g : ℚ) (hsp : b.speaker = a.speaker) :
    (b.start - a.«end» = g →
      merge_consecutive_speaker_segments [a, b] g =
        [{ a with
            «end» := b.«end»
            text := a.text ++ " " ++ b.text
            words := a.words ++ b.words }]) ∧
    (g < b.start - a.«end» →
      merge_consecutive_speaker_segments [a, b] g = [a, b]) := by
  constructor
  · intro hg
    have hcond : b.speaker = a.speaker ∧ b.start - a.«end» ≤ g := ⟨hsp, le_of_eq hg⟩
    simp only [merge_consecutive_speaker_segments, mergeLoop, if_pos hcond]
  · intro hg
    have hcond : ¬(b.speaker = a.speaker ∧ b.start - a.«end» ≤ g) := by
      rintro ⟨-, hle⟩
      exact absurd hg (not_lt.mpr hle)
    simp only [merge_consecutive_speaker_segments, mergeLoop, if_neg hcond]

/-- Witness for C6: concrete segments with gap exactly equal to `max_gap`. -/
theorem C6_witness :
    ((2 : ℚ) - 1 = 1 →
      merge_consecutive_speaker_segments
        [(⟨0, 1, "A", "x", []⟩ : AlignedSeg), ⟨2, 3, "A", "y", []⟩] 1 =
        [⟨0, 3, "A", "x y", []⟩]) ∧
    ((1 : ℚ) < 2 - 1 →
      merge_consecutive_speaker_segments
        [(⟨0, 1, "A", "x", []⟩ : AlignedSeg), ⟨2, 3, "A", "y", []⟩] 1 =
        [⟨0, 1, "A", "x", []⟩, ⟨2, 3, "A", "y", []⟩]) := by
  have h := C6_merge_gap_boundary ⟨0, 1, "A", "x", []⟩ ⟨2, 3, "A", "y", []⟩ 1 rfl
  exact h

/-! ## Claim C9: updating a missing job id is a no-op -/

/-- Claim C9: for a job id absent from the store, `update_job` returns and
leaves the whole store state unchanged, in both the in-memory and the
Redis-backed implementations. -/
theorem C9_update_missing_id_noop (now : String) (st : JobMap) (rst : RedisState)
    (id : String) (status : Option JobStatus) (result : Option ResultRecord)
    (error : Option String)
    (h1 : lookupJob st id = none) (h2 : lookupJob rst.kv id = none) :
    inMem_update_job now st id status result error = st ∧
    redis_update_job now rst id status result error = rst := by
  constructor
  · unfold inMem_update_job
    rw [h1]
  · unfold redis_update_job
    rw [h2]

/-- Witness for C9: a concrete store holding only job id `"a"`, updated at
the missing id `"b"`. -/
theorem C9_witness :
    inMem_update_job "t1" [("a", newJob "a" "r" "u" "c" "t0")] "b"
        (some JobStatus.failed) none (some "boom") =
      [("a", newJob "a" "r" "u" "c" "t0")] ∧
    redis_update_job "t1" ⟨[("a", newJob "a" "r" "u" "c" "t0")], ["a"]⟩ "b"
        (some JobStatus.failed) none (some "boom") =
      ⟨[("a", newJob "a" "r" "u" "c" "t0")], ["a"]⟩ :=
  C9_update_missing_id_noop "t1" [("a", newJob "a" "r" "u" "c" "t0")]
    ⟨[("a", newJob "a" "r" "u" "c" "t0")], ["a"]⟩ "b"
    (some JobStatus.failed) none (some "boom") (by decide) (by decide)

/-! ## Claims C7 and C10: merge idempotence and text/word preservation -/

/-- The merge loop always returns a non-empty list whose head keeps the
accumulator's start and speaker (merging only extends end/text/words). -/
theorem mergeLoop_head (g : ℚ) (c : AlignedSeg) (rest : List AlignedSeg) :
    ∃ hd tl, mergeLoop g c rest = hd :: tl ∧ hd.start = c.start ∧ hd.speaker = c.speaker := by
  induction rest generalizing c with
  | nil => exact ⟨c, [], rfl, rfl, rfl⟩
  | cons s tail ih =>
    by_cases h : s.speaker = c.speaker ∧ s.start - c.«end» ≤ g
    · rw [mergeLoop, if_pos h]
      exact ih _
    · rw [mergeLoop, if_neg h]
      exact ⟨c, _, rfl, rfl, rfl⟩

/-- The separation failing the merge condition between two adjacent segments. -/
def mergeSep (g : ℚ) (x y : AlignedSeg) : Prop :=
  ¬(y.speaker = x.speaker ∧ y.start - x.«end» ≤ g)

instance (g : ℚ) : DecidableRel (mergeSep g) := fun x y => by
  unfold mergeSep
  infer_instance

/-- Adjacent segments in the output of the merge loop never satisfy the merge
condition: the loop flushes the accumulator exactly when the condition fails. -/
theorem mergeLoop_chain (g : ℚ) (c : AlignedSeg) (rest : List AlignedSeg) :
    List.Chain' (mergeSep g) (mergeLoop g c rest) := by
  induction rest generalizing c with
  | nil => simp [mergeLoop]
  | cons s tail ih =>
    by_cases h : s.speaker = c.speaker ∧ s.start - c.«end» ≤ g
    · rw [mergeLoop, if_pos h]
      exact ih _
    · rw [mergeLoop, if_neg h]
      obtain ⟨hd, tl, heq, hstart, hspk⟩ := mergeLoop_head g s tail
      rw [heq]
      refine List.chain'_cons.mpr ⟨?_, heq ▸ ih s⟩
      rw [mergeSep, hspk, hstart]
      exact h

/-- A list whose adjacent pairs all fail the merge condition is left unchanged
by `merge_consecutive_speaker_segments`. -/
theorem merge_of_chain (g : ℚ) (l : List AlignedSeg)
    (h : List.Chain' (mergeSep g) l) :
    merge_consecutive_speaker_segments l g = l := by
  induction l with
  | nil => rfl
  | cons c rest ih =>
    cases rest with
    | nil => rfl
    | cons s tail =>
      have h1 := (List.chain'_cons.mp h).1
      have h2 := (List.chain'_cons.mp h).2
      have hrec : merge_consecutive_speaker_segments (s :: tail) g = s :: tail := ih h2
      show mergeLoop g c (s :: tail) = c :: s :: tail
      rw [mergeLoop, if_neg h1]
      exact congrArg (c :: ·) hrec

/-- Claim C7: Phase B is idempotent on time-ordered, non-overlapping input:
merging the merge's own output performs no further merging. -/
theorem C7_merge_idempotent (l : List AlignedSeg) (g : ℚ)
    (hord : List.Chain' (fun x y => x.«end» ≤ y.start) l) :
    merge_consecutive_speaker_segments (merge_consecutive_speaker_segments l g) g =
      merge_consecutive_speaker_segments l g := by
  cases l with
  | nil => rfl
  | cons c rest => exact merge_of_chain g _ (mergeLoop_chain g c rest)

/-- Witness for C7: a concrete ordered, non-overlapping segment list. -/
theorem C7_witness :
    merge_consecutive_speaker_segments
        (merge_consecutive_speaker_segments
          [(⟨0, 1, "A", "x", []⟩ : AlignedSeg), ⟨2, 3, "B", "y", []⟩, ⟨3, 4, "B", "z", []⟩] 1) 1 =
      merge_consecutive_speaker_segments
        [(⟨0, 1, "A", "x", []⟩ : AlignedSeg), ⟨2, 3, "B", "y", []⟩, ⟨3, 4, "B", "z", []⟩] 1 :=
  C7_merge_idempotent
    [(⟨0, 1, "A", "x", []⟩ : AlignedSeg), ⟨2, 3, "B", "y", []⟩, ⟨3, 4, "B", "z", []⟩] 1
    (by
      simp only [List.chain'_cons, List.chain'_singleton, and_true]
      norm_num)

/-- `" ".join` over a cons with a non-empty tail. -/
theorem joinSpace_cons (a : String) (l : List String) (h : l ≠ []) :
    joinSpace (a :: l) = a ++ " " ++ joinSpace l := by
  cases l with
  | nil => exact absurd rfl h
  | cons b t => rfl

/-- Joining a pre-glued pair equals joining the two pieces separately. -/
theorem joinSpace_glue (a b : String) (l : List String) :
    joinSpace ((a ++ " " ++ b) :: l) = a ++ " " ++ joinSpace (b :: l) := by
  cases l with
  | nil => rfl
  | cons x t =>
    show (a ++ " " ++ b) ++ " " ++ joinSpace (x :: t) = a ++ " " ++ (b ++ " " ++ joinSpace (x :: t))
    simp [String.append_assoc]

/-- The merge loop preserves the space-joined text of accumulator and rest. -/
theorem mergeLoop_joinSpace (g : ℚ) (c : AlignedSeg) (rest : List AlignedSeg) :
    joinSpace ((mergeLoop g c rest).map AlignedSeg.text) =
      joinSpace (c.text :: rest.map AlignedSeg.text) := by
  induction rest generalizing c with
  | nil => rfl
  | cons s tail ih =>
    by_cases h : s.speaker = c.speaker ∧ s.start - c.«end» ≤ g
    · rw [mergeLoop, if_pos h, ih]
      exact joinSpace_glue c.text s.text (tail.map AlignedSeg.text)
    · rw [mergeLoop, if_neg h]
      obtain ⟨hd, tl, heq, -, -⟩ := mergeLoop_head g s tail
      have hne : (mergeLoop g s tail).map AlignedSeg.text ≠ [] := by
        rw [heq]
        simp
      rw [List.map_cons, joinSpace_cons c.text _ hne, ih, List.map_cons]
      rfl

/-- The merge loop preserves the concatenation of all word lists. -/
theorem mergeLoop_words (g : ℚ) (c : AlignedSeg) (rest : List AlignedSeg) :
    ((mergeLoop g c rest).map AlignedSeg.words).flatten =
      c.words ++ (rest.map AlignedSeg.words).flatten := by
  induction rest generalizing c with
  | nil => simp [mergeLoop]
  | cons s tail ih =>
    by_cases h : s.speaker = c.speaker ∧ s.start - c.«end» ≤ g
    · rw [mergeLoop, if_pos h, ih]
      simp [List.append_assoc]
    · rw [mergeLoop, if_neg h]
      simp only [List.map_cons, List.flatten_cons, ih]

/-- Claim C10: Phase B preserves the full transcript: the space-joined texts
and the in-order concatenation of word lists of the merged segments equal
those of the input segments, for every input list and gap. -/
theorem C10_merge_preserves_transcript (l : List AlignedSeg) (g : ℚ) :
    joinSpace ((merge_consecutive_speaker_segments l g).map AlignedSeg.text) =
      joinSpace (l.map AlignedSeg.text) ∧
    ((merge_consecutive_speaker_segments l g).map AlignedSeg.words).flatten =
      (l.map AlignedSeg.words).flatten := by
  cases l with
  | nil => exact ⟨rfl, rfl⟩
  | cons c rest =>
    constructor
    · exact mergeLoop_joinSpace g c rest
    · rw [show merge_consecutive_speaker_segments (c :: rest) g = mergeLoop g c rest from rfl,
        mergeLoop_words]
      simp

/-! ## Claim C5: best-overlap speaker selection with first-encountered tie-break -/

/-- If no remaining overlap strictly beats the accumulator, the loop keeps it. -/
theorem bestFold_no_update (t : TranscriptSeg) (rest : List DiarSeg)
    (acc : Option String × ℚ) (h : ∀ e ∈ rest, overlapQ t e ≤ acc.2) :
    bestFold t rest acc = acc := by
  induction rest generalizing acc with
  | nil => rfl
  | cons d ds ih =>
    have hd : overlapQ t d ≤ acc.2 := h d (by simp)
    rw [bestFold, if_neg (not_lt.mpr hd)]
    exact ih acc (fun e he => h e (by simp [he]))

/-- The loop's accumulator ends at the first diarization segment attaining the
maximal overlap, provided the accumulator starts strictly below it. -/
theorem bestFold_finds_first_max (t : TranscriptSeg) (d : DiarSeg) (post : List DiarSeg)
    (hpost : ∀ e ∈ post, overlapQ t e ≤ overlapQ t d) :
    ∀ (pre : List DiarSeg) (acc : Option String × ℚ),
      (∀ e ∈ pre, overlapQ t e < overlapQ t d) → acc.2 < overlapQ t d →
      bestFold t (pre ++ d :: post) acc = (some d.speaker, overlapQ t d) := by
  intro pre
  induction pre with
  | nil =>
    intro acc _ hacc
    rw [List.nil_append, bestFold, if_pos hacc]
    exact bestFold_no_update t post (some d.speaker, overlapQ t d) (fun e he => hpost e he)
  | cons e pre ih =>
    intro acc hpre hacc
    have he : overlapQ t e < overlapQ t d := hpre e (by simp)
    rw [List.cons_append, bestFold]
    by_cases hc : acc.2 < overlapQ t e
    · rw [if_pos hc]
      exact ih (some e.speaker, overlapQ t e) (fun x hx => hpre x (by simp [hx])) he
    · rw [if_neg hc]
      exact ih acc (fun x hx => hpre x (by simp [hx])) hacc

/-- Claim C5: when a diarization segment `d` has positive overlap with the
transcript segment `t`, no segment overlaps strictly more, and every segment
listed before `d` overlaps strictly less, the Phase A selection loop picks
`d`'s speaker — the strictly-largest-overlap segment wins, with ties broken
in favour of the first encountered in diarization order. -/
theorem C5_best_overlap_first_encountered_wins (t : TranscriptSeg)
    (pre post : List DiarSeg) (d : DiarSeg)
    (hpos : 0 < overlapQ t d)
    (hmax : ∀ e ∈ pre ++ d :: post, overlapQ t e ≤ overlapQ t d)
    (hfirst : ∀ e ∈ pre, overlapQ t e < overlapQ t d) :
    bestSpeakerOf t (pre ++ d :: post) = some d.speaker := by
  unfold bestSpeakerOf
  rw [bestFold_finds_first_max t d post
    (fun e he => hmax e (by simp [he])) pre (none, 0) hfirst hpos]

/-- Witness for C5: the spec's gap scenario — transcript segment 5–6 against
diarization segments A (0–4, overlap 0, listed first) and B (4–10, overlap 1). -/
theorem C5_witness :
    bestSpeakerOf ⟨5, 6, "hello", []⟩ ([⟨0, 4, "A"⟩] ++ (⟨4, 10, "B"⟩ : DiarSeg) :: []) =
      some (⟨4, 10, "B"⟩ : DiarSeg).speaker :=
  C5_best_overlap_first_encountered_wins ⟨5, 6, "hello", []⟩ [⟨0, 4, "A"⟩] []
    ⟨4, 10, "B"⟩ (by norm_num [overlapQ])
    (by
      intro e he
      simp at he
      rcases he with h | h <;> subst h <;> norm_num [overlapQ])
    (by
      intro e he
      simp at he
      subst he
      norm_num [overlapQ])

/-! ## Claim C8: timestamp stamping on status updates -/

/-- A `processing` update stamps `started_at` with the current time,
unconditionally — any previously stored value is overwritten. -/
theorem applyUpdate_processing_started (now : String) (job : Job)
    (result : Option ResultRecord) (error : Option String) :
    (applyUpdate now job (some JobStatus.processing) result error).started_at = some now := by
  unfold applyUpdate
  rcases result with - | r <;> rcases error with - | e <;> rfl

/-- A `completed` update stamps `completed_at` with the current time. -/
theorem applyUpdate_completed_stamped (now : String) (job : Job)
    (result : Option ResultRecord) (error : Option String) :
    (applyUpdate now job (some JobStatus.completed) result error).completed_at = some now := by
  unfold applyUpdate
  rcases result with - | r <;> rcases error with - | e <;> rfl

/-- A `failed` update stamps `completed_at` with the current time. -/
theorem applyUpdate_failed_stamped (now : String) (job : Job)
    (result : Option ResultRecord) (error : Option String) :
    (applyUpdate now job (some JobStatus.failed) result error).completed_at = some now := by
  unfold applyUpdate
  rcases result with - | r <;> rcases error with - | e <;> rfl

/-- Claim C8, counterexample: a job whose `started_at` is already set to
`"t0"` gets it overwritten to the new time `"t1"` by a repeated `processing`
update — the code stamps unconditionally, not only when unset. -/
theorem C8_counterexample :
    (lookupJob
        (inMem_update_job "t1"
          [("a", { newJob "a" "r" "u" "c" "tc" with
                    status := JobStatus.processing
                    started_at := some "t0" })]
          "a" (some JobStatus.processing) none none)
        "a").map Job.started_at = some (some "t1") ∧
    ({ newJob "a" "r" "u" "c" "tc" with
        status := JobStatus.processing
        started_at := some "t0" } : Job).started_at = some "t0" ∧
    some "t1" ≠ some "t0" := by
  refine ⟨rfl, rfl, by decide⟩

/-- Claim C8 (amended): in both implementations, an update to `processing`
stamps `started_at` with the update's current time unconditionally
(a repeated `processing` update therefore overwrites the original value),
and an update to `completed` or `failed` stamps `completed_at`. -/
theorem C8_status_updates_stamp_timestamps (now : String) (st : JobMap)
    (rst : RedisState) (id : String) (j0 j1 : Job)
    (h1 : lookupJob st id = some j0) (h2 : lookupJob rst.kv id = some j1) :
    (∃ j', lookupJob (inMem_update_job now st id (some JobStatus.processing) none none) id
        = some j' ∧ j'.started_at = some now) ∧
    (∃ j', lookupJob (inMem_update_job now st id (some JobStatus.completed) none none) id
        = some j' ∧ j'.completed_at = some now) ∧
    (∃ j', lookupJob (inMem_update_job now st id (some JobStatus.failed) none none) id
        = some j' ∧ j'.completed_at = some now) ∧
    (∃ j', lookupJob (redis_update_job now rst id (some JobStatus.processing) none none).kv
        j1.id = some j' ∧ j'.started_at = some now) ∧
    (∃ j', lookupJob (redis_update_job now rst id (some JobStatus.completed) none none).kv
        j1.id = some j' ∧ j'.completed_at = some now) ∧
    (∃ j', lookupJob (redis_update_job now rst id (some JobStatus.failed) none none).kv
        j1.id = some j' ∧ j'.completed_at = some now) := by
  refine ⟨⟨_, ?_, applyUpdate_processing_started now j0 none none⟩,
          ⟨_, ?_, applyUpdate_completed_stamped now j0 none none⟩,
          ⟨_, ?_, applyUpdate_failed_stamped now j0 none none⟩,
          ⟨_, ?_, applyUpdate_processing_started now j1 none none⟩,
          ⟨_, ?_, applyUpdate_completed_stamped now j1 none none⟩,
          ⟨_, ?_, applyUpdate_failed_stamped now j1 none none⟩⟩ <;>
    first
      | (unfold inMem_update_job
         rw [h1]
         exact lookupJob_dictSet_self st id _)
      | (unfold redis_update_job
         rw [h2]
         exact lookupJob_dictSet_self rst.kv j1.id _)

/-- Witness for C8: a concrete one-job store in each implementation. -/
theorem C8_witness :
    (∃ j', lookupJob (inMem_update_job "t1" [("a", newJob "a" "r" "u" "c" "t0")] "a"
        (some JobStatus.processing) none none) "a" = some j' ∧ j'.started_at = some "t1") ∧
    (∃ j', lookupJob (inMem_update_job "t1" [("a", newJob "a" "r" "u" "c" "t0")] "a"
        (some JobStatus.completed) none none) "a" = some j' ∧ j'.completed_at = some "t1") ∧
    (∃ j', lookupJob (inMem_update_job "t1" [("a", newJob "a" "r" "u" "c" "t0")] "a"
        (some JobStatus.failed) none none) "a" = some j' ∧ j'.completed_at = some "t1") ∧
    (∃ j', lookupJob (redis_update_job "t1" ⟨[("a", newJob "a" "r" "u" "c" "t0")], ["a"]⟩ "a"
        (some JobStatus.processing) none none).kv (newJob "a" "r" "u" "c" "t0").id = some j' ∧
        j'.started_at = some "t1") ∧
    (∃ j', lookupJob (redis_update_job "t1" ⟨[("a", newJob "a" "r" "u" "c" "t0")], ["a"]⟩ "a"
        (some JobStatus.completed) none none).kv (newJob "a" "r" "u" "c" "t0").id = some j' ∧
        j'.completed_at = some "t1") ∧
    (∃ j', lookupJob (redis_update_job "t1" ⟨[("a", newJob "a" "r" "u" "c" "t0")], ["a"]⟩ "a"
        (some JobStatus.failed) none none).kv (newJob "a" "r" "u" "c" "t0").id = some j' ∧
        j'.completed_at = some "t1") :=
  C8_status_updates_stamp_timestamps "t1" [("a", newJob "a" "r" "u" "c" "t0")]
    ⟨[("a", newJob "a" "r" "u" "c" "t0")], ["a"]⟩ "a"
    (newJob "a" "r" "u" "c" "t0") (newJob "a" "r" "u" "c" "t0") (by decide) (by decide)

/-! ## Claim C4: failed jobs end failed, with an error, no result, and a
failure webhook -/

/-- The formatted error message is never the empty string: it always contains
the `": "` separator between the exception class name and its message. -/
theorem errorMsgOf_ne_empty (e : PyErr) : errorMsgOf e ≠ "" := by
  intro h
  have hlen := congrArg String.length h
  rw [errorMsgOf, String.length_append, String.length_append, String.length_append,
    String.length_append, show (": " : String).length = 2 from rfl,
    show ("\n" : String).length = 1 from rfl,
    show ("" : String).length = 0 from rfl] at hlen
  omega

/-- An update that passes no `result` leaves the job's `result` field as it was. -/
theorem applyUpdate_result_none (now : String) (job : Job) (status : Option JobStatus)
    (error : Option String) :
    (applyUpdate now job status none error).result = job.result := by
  unfold applyUpdate
  rcases error with - | e <;> rcases status with - | s
  · rfl
  · cases s <;> rfl
  · rfl
  · cases s <;> rfl

/-- Status assignment is not undone by the `error` field write. -/
theorem applyUpdate_status_some (now : String) (job : Job) (s : JobStatus)
    (error : Option String) :
    (applyUpdate now job (some s) none error).status = s := by
  unfold applyUpdate
  rcases error with - | e <;> cases s <;> rfl

/-- Passing an error string stores exactly that string. -/
theorem applyUpdate_error_some (now : String) (job : Job) (status : Option JobStatus)
    (msg : String) :
    (applyUpdate now job status none (some msg)).error = some msg := by
  unfold applyUpdate
  rcases status with - | s <;> rfl

/-- What the `except` branch of `process_job` guarantees about the store and
the webhook log, given the job is present with no result attached. -/
theorem failPath_spec (e : PyErr) (now : String) (q : JobMap) (job : Job) (j1 : Job)
    (hq : lookupJob q job.id = some j1) (hres : j1.result = none) :
    ∃ j', lookupJob (failPath e now q job).2.1 job.id = some j' ∧
      j'.status = JobStatus.failed ∧
      j'.error = some (errorMsgOf e) ∧
      j'.result = none ∧
      (failPath e now q job).2.2 =
        [{ callback_url := job.callback_url, job_id := job.id, success := false,
           data := HookData.failure e.msg job.recording_id }] := by
  refine ⟨applyUpdate now j1 (some JobStatus.failed) none (some (errorMsgOf e)),
    ?_, ?_, ?_, ?_, rfl⟩
  · show lookupJob (inMem_update_job now q job.id (some JobStatus.failed) none
        (some (errorMsgOf e))) job.id = _
    unfold inMem_update_job
    rw [hq]
    exact lookupJob_dictSet_self q job.id _
  · exact applyUpdate_status_some now j1 JobStatus.failed (some (errorMsgOf e))
  · exact applyUpdate_error_some now j1 (some JobStatus.failed) (errorMsgOf e)
  · rw [applyUpdate_result_none]
    exact hres

/-- Claim C4: whenever any stage of `process_job` fails (the run re-raises an
exception `e`), the job recorded in the store ends with status `failed`, a
non-empty error string, and no result attached, and the attempted webhooks
consist exactly of one failure webhook with `success = false` whose payload
carries the recording id and the error text. -/
theorem C4_failure_leaves_failed_job_and_failure_webhook (env : PipelineEnv)
    (now : String) (st : JobMap) (job : Job) (e : PyErr) (j0 : Job)
    (hrun : (process_job env now st job).1 = Except.error e)
    (hst : lookupJob st job.id = some j0) (hres : j0.result = none) :
    ∃ j', lookupJob (process_job env now st job).2.1 job.id = some j' ∧
      j'.status = JobStatus.failed ∧
      j'.error = some (errorMsgOf e) ∧
      errorMsgOf e ≠ "" ∧
      j'.result = none ∧
      (process_job env now st job).2.2 =
        [{ callback_url := job.callback_url, job_id := job.id, success := false,
           data := HookData.failure e.msg job.recording_id }] := by
  have hq1 : lookupJob (inMem_update_job now st job.id (some JobStatus.processing) none none)
      job.id = some (applyUpdate now j0 (some JobStatus.processing) none none) := by
    unfold inMem_update_job
    rw [hst]
    exact lookupJob_dictSet_self st job.id _
  have hres1 : (applyUpdate now j0 (some JobStatus.processing) none none).result = none := by
    rw [applyUpdate_result_none]
    exact hres
  have main : ∀ e', (process_job env now st job).1 = Except.error e' →
      ∃ j', lookupJob (process_job env now st job).2.1 job.id = some j' ∧
        j'.status = JobStatus.failed ∧ j'.error = some (errorMsgOf e') ∧
        j'.result = none ∧
        (process_job env now st job).2.2 =
          [{ callback_url := job.callback_url, job_id := job.id, success := false,
             data := HookData.failure e'.msg job.recording_id }] := by
    intro e' hrun'
    unfold process_job at hrun' ⊢
    rcases hdl : env.download with edl | adl
    · rw [hdl] at hrun'
      obtain rfl : edl = e' := by
        simpa [failPath] using hrun'
      exact failPath_spec edl now _ job _ hq1 hres1
    · rw [hdl] at hrun'
      rcases hdz : env.diarize with edz | dsegs
      · rw [hdz] at hrun'
        obtain rfl : edz = e' := by
          simpa [failPath] using hrun'
        exact failPath_spec edz now _ job _ hq1 hres1
      · rw [hdz] at hrun'
        rcases htr : env.transcribe with etr | tsegs
        · rw [htr] at hrun'
          obtain rfl : etr = e' := by
            simpa [failPath] using hrun'
          exact failPath_spec etr now _ job _ hq1 hres1
        · rw [htr] at hrun'
          rcases hex : env.extract with eex | emb
          · rw [hex] at hrun'
            obtain rfl : eex = e' := by
              simpa [failPath] using hrun'
            exact failPath_spec eex now _ job _ hq1 hres1
          · rw [hex] at hrun'
            simp at hrun'
  obtain ⟨j', ha, hb, hc, hd, hee⟩ := main e hrun
  exact ⟨j', ha, hb, hc, errorMsgOf_ne_empty e, hd, hee⟩

/-- Witness for C4: a concrete run whose audio download raises a 404. -/
theorem C4_witness :
    ∃ j', lookupJob
        (process_job
          { download := Except.error ⟨"HTTPStatusError", "404 Not Found", "tb"⟩
            diarize := Except.ok []
            transcribe := Except.ok []
            extract := Except.ok [] }
          "t1" [("a", newJob "a" "rec1" "http://x/audio" "http://x/cb" "t0")]
          (newJob "a" "rec1" "http://x/audio" "http://x/cb" "t0")).2.1 "a" = some j' ∧
      j'.status = JobStatus.failed ∧
      j'.error = some (errorMsgOf ⟨"HTTPStatusError", "404 Not Found", "tb"⟩) ∧
      errorMsgOf ⟨"HTTPStatusError", "404 Not Found", "tb"⟩ ≠ "" ∧
      j'.result = none ∧
      (process_job
          { download := Except.error ⟨"HTTPStatusError", "404 Not Found", "tb"⟩
            diarize := Except.ok []
            transcribe := Except.ok []
            extract := Except.ok [] }
          "t1" [("a", newJob "a" "rec1" "http://x/audio" "http://x/cb" "t0")]
          (newJob "a" "rec1" "http://x/audio" "http://x/cb" "t0")).2.2 =
        [{ callback_url := "http://x/cb", job_id := "a", success := false,
           data := HookData.failure "404 Not Found" "rec1" }] :=
  C4_failure_leaves_failed_job_and_failure_webhook
    { download := Except.error ⟨"HTTPStatusError", "404 Not Found", "tb"⟩
      diarize := Except.ok []
      transcribe := Except.ok []
      extract := Except.ok [] }
    "t1" [("a", newJob "a" "rec1" "http://x/audio" "http://x/cb" "t0")]
    (newJob "a" "rec1" "http://x/audio" "http://x/cb" "t0")
    ⟨"HTTPStatusError", "404 Not Found", "tb"⟩
    (newJob "a" "rec1" "http://x/audio" "http://x/cb" "t0")
    rfl (by decide) rfl

/-! ## Claim C1: `next_pending` never returns the same job id twice -/

/-- `update_job` never changes a job's id. -/
theorem applyUpdate_id (now : String) (job : Job) (s : Option JobStatus)
    (r : Option ResultRecord) (e : Option String) :
    (applyUpdate now job s r e).id = job.id := by
  unfold applyUpdate
  rcases e with - | e' <;> rcases r with - | r' <;> rcases s with - | s' <;>
    first
      | rfl
      | (cases s' <;> rfl)

/-- The key-value store invariant: every record is stored under its own id. -/
def kvInv (kv : JobMap) : Prop := ∀ p ∈ kv, (p.2).id = p.1

/-- Under the store invariant, a fetched job carries the id it was fetched by. -/
theorem kvInv_lookup (kv : JobMap) (id : String) (j : Job) (hinv : kvInv kv)
    (h : lookupJob kv id = some j) : j.id = id := by
  induction kv with
  | nil => simp [lookupJob] at h
  | cons p rest ih =>
    obtain ⟨k, j0⟩ := p
    rw [lookupJob] at h
    by_cases hk : k = id
    · rw [if_pos hk] at h
      obtain rfl : j0 = j := by injection h
      have hid : j0.id = k := hinv (k, j0) (by simp)
      rw [hid, hk]
    · rw [if_neg hk] at h
      exact ih (fun p hp => hinv p (by simp [hp])) h

/-- Storing a record under its own id preserves the store invariant. -/
theorem kvInv_dictSet (kv : JobMap) (k : String) (v : Job) (hinv : kvInv kv)
    (hv : v.id = k) : kvInv (dictSet kv k v) := by
  induction kv with
  | nil =>
    intro p hp
    rw [dictSet, List.mem_singleton] at hp
    subst hp
    exact hv
  | cons q rest ih =>
    obtain ⟨k0, j0⟩ := q
    intro p hp
    rw [dictSet] at hp
    by_cases hk : k0 = k
    · rw [if_pos hk] at hp
      rcases List.mem_cons.mp hp with rfl | hmem
      · rw [hv, hk]
      · exact hinv p (by simp [hmem])
    · rw [if_neg hk] at hp
      rcases List.mem_cons.mp hp with rfl | hmem
      · exact hinv (k0, j0) (by simp)
      · exact ih (fun q hq => hinv q (by simp [hq])) p hmem

/-- `add_job` preserves the store invariant. -/
theorem kvInv_add (st : RedisState) (id r u c n : String) (hinv : kvInv st.kv) :
    kvInv (redis_add_job st id r u c n).kv :=
  kvInv_dictSet st.kv id (newJob id r u c n) hinv rfl

/-- `update_job` preserves the store invariant. -/
theorem kvInv_update (now : String) (st : RedisState) (id : String)
    (s : Option JobStatus) (r : Option ResultRecord) (e : Option String)
    (hinv : kvInv st.kv) : kvInv (redis_update_job now st id s r e).kv := by
  unfold redis_update_job
  rcases h : lookupJob st.kv id with - | job
  · exact hinv
  · exact kvInv_dictSet st.kv job.id _ hinv (applyUpdate_id now job s r e)

/-- `update_job` never touches the pending id queue. -/
theorem redis_update_queue (now : String) (st : RedisState) (id : String)
    (s : Option JobStatus) (r : Option ResultRecord) (e : Option String) :
    (redis_update_job now st id s r e).queue = st.queue := by
  unfold redis_update_job
  rcases h : lookupJob st.kv id with - | job <;> rfl

/-- Core trace invariant for the Redis-backed store: starting from a store
whose pending queue has no duplicate ids, none of which will ever be re-added,
the ids returned by `next_pending` are pairwise distinct and all come from the
initial queue or from the trace's `add` operations. -/
theorem redisRun_outIds_nodup (ops : List QOp) :
    ∀ st : RedisState, st.queue.Nodup → (addIds ops).Nodup →
      (∀ a ∈ addIds ops, a ∉ st.queue) → kvInv st.kv →
      (outIds (redisRun st ops).2).Nodup ∧
      ∀ x ∈ outIds (redisRun st ops).2, x ∈ st.queue ∨ x ∈ addIds ops := by
  induction ops with
  | nil =>
    intro st h1 h2 h3 h4
    exact ⟨List.nodup_nil, by simp [redisRun, outIds]⟩
  | cons op rest ih =>
    intro st h1 h2 h3 h4
    obtain ⟨kv, q⟩ := st
    cases op with
    | add id r u c n =>
      have hids : addIds (QOp.add id r u c n :: rest) = id :: addIds rest := rfl
      rw [hids] at h2 h3
      have hid_notin : id ∉ q := h3 id (by simp)
      have hid_rest : id ∉ addIds rest := (List.nodup_cons.mp h2).1
      have h2' : (addIds rest).Nodup := (List.nodup_cons.mp h2).2
      have h1' : (redis_add_job ⟨kv, q⟩ id r u c n).queue.Nodup := by
        show (q ++ [id]).Nodup
        simp [List.nodup_append, h1, hid_notin]
      have h3' : ∀ a ∈ addIds rest, a ∉ (redis_add_job ⟨kv, q⟩ id r u c n).queue := by
        intro a ha
        show a ∉ q ++ [id]
        simp only [List.mem_append, List.mem_singleton]
        rintro (hin | rfl)
        · exact h3 a (by simp [ha]) hin
        · exact hid_rest ha
      have h4' : kvInv (redis_add_job ⟨kv, q⟩ id r u c n).kv := kvInv_add _ id r u c n h4
      obtain ⟨hnd, hmem⟩ := ih _ h1' h2' h3' h4'
      have hrun : (redisRun ⟨kv, q⟩ (QOp.add id r u c n :: rest)).2 =
          none :: (redisRun (redis_add_job ⟨kv, q⟩ id r u c n) rest).2 := by
        simp [redisRun, redisStep]
      rw [hrun]
      refine ⟨hnd, ?_⟩
      intro x hx
      have hx' : x ∈ outIds (redisRun (redis_add_job ⟨kv, q⟩ id r u c n) rest).2 := hx
      rcases hmem x hx' with hq | hr
      · rcases List.mem_append.mp hq with hin | hin
        · exact Or.inl hin
        · right
          rw [hids, List.mem_singleton.mp hin]
          simp
      · right
        rw [hids]
        simp [hr]
    | update id s r e n =>
      have hids : addIds (QOp.update id s r e n :: rest) = addIds rest := rfl
      rw [hids] at h2 h3
      have hq : (redis_update_job n ⟨kv, q⟩ id s r e).queue = q :=
        redis_update_queue n ⟨kv, q⟩ id s r e
      have h1' : (redis_update_job n ⟨kv, q⟩ id s r e).queue.Nodup := by
        rw [hq]; exact h1
      have h3' : ∀ a ∈ addIds rest, a ∉ (redis_update_job n ⟨kv, q⟩ id s r e).queue := by
        rw [hq]; exact h3
      have h4' : kvInv (redis_update_job n ⟨kv, q⟩ id s r e).kv :=
        kvInv_update n ⟨kv, q⟩ id s r e h4
      obtain ⟨hnd, hmem⟩ := ih _ h1' h2 h3' h4'
      have hrun : (redisRun ⟨kv, q⟩ (QOp.update id s r e n :: rest)).2 =
          none :: (redisRun (redis_update_job n ⟨kv, q⟩ id s r e) rest).2 := by
        simp [redisRun, redisStep]
      rw [hrun]
      refine ⟨hnd, ?_⟩
      intro x hx
      have hx' : x ∈ outIds (redisRun (redis_update_job n ⟨kv, q⟩ id s r e) rest).2 := hx
      rcases hmem x hx' with hmq | hr
      · rw [hq] at hmq
        exact Or.inl hmq
      · right
        rw [hids]
        exact hr
    | next =>
      have hids : addIds (QOp.next :: rest) = addIds rest := rfl
      rw [hids] at h2 h3
      cases q with
      | nil =>
        obtain ⟨hnd, hmem⟩ := ih ⟨kv, []⟩ h1 h2 h3 h4
        have hrun : (redisRun ⟨kv, []⟩ (QOp.next :: rest)).2 =
            none :: (redisRun ⟨kv, []⟩ rest).2 := by
          simp [redisRun, redisStep, redis_get_next_pending]
        rw [hrun]
        refine ⟨hnd, ?_⟩
        intro x hx
        rcases hmem x hx with hmq | hr
        · exact Or.inl hmq
        · right
          rw [hids]
          exact hr
      | cons qid qrest =>
        have hqid_notin : qid ∉ qrest := (List.nodup_cons.mp h1).1
        have h1' : qrest.Nodup := (List.nodup_cons.mp h1).2
        have h3' : ∀ a ∈ addIds rest, a ∉ qrest := by
          intro a ha hin
          exact h3 a ha (by simp [hin])
        have hqid_add : qid ∉ addIds rest := by
          intro hin
          exact h3 qid hin (by simp)
        obtain ⟨hnd, hmem⟩ := ih ⟨kv, qrest⟩ h1' h2 h3' h4
        have hrun : (redisRun ⟨kv, qid :: qrest⟩ (QOp.next :: rest)).2 =
            lookupJob kv qid :: (redisRun ⟨kv, qrest⟩ rest).2 := by
          simp [redisRun, redisStep, redis_get_next_pending]
        rw [hrun]
        rcases hl : lookupJob kv qid with - | j
        · refine ⟨hnd, ?_⟩
          intro x hx
          rcases hmem x hx with hmq | hr
          · exact Or.inl (by simp [hmq])
          · right
            rw [hids]
            exact hr
        · have hjid : j.id = qid := kvInv_lookup kv qid j h4 hl
          have houts : outIds (some j :: (redisRun ⟨kv, qrest⟩ rest).2) =
              j.id :: outIds (redisRun ⟨kv, qrest⟩ rest).2 := rfl
          rw [houts, hjid]
          constructor
          · refine List.nodup_cons.mpr ⟨?_, hnd⟩
            intro hin
            rcases hmem qid hin with hmq | hr
            · exact hqid_notin hmq
            · exact hqid_add hr
          · intro x hx
            rcases List.mem_cons.mp hx with rfl | hx'
            · exact Or.inl (by simp)
            · rcases hmem x hx' with hmq | hr
              · exact Or.inl (by simp [hmq])
              · right
                rw [hids]
                exact hr

/-- Claim C1, counterexample: on the in-memory implementation, a trace that
adds one job and then calls `get_next_pending` twice with no intervening
update — hence no re-insertion of any job id — returns the job id `"a"` in
two different calls: the in-memory `get_next_pending` does not remove the
returned job from the pending pool. -/
theorem C1_counterexample :
    (addIds [QOp.add "a" "r" "u" "c" "t0", QOp.next, QOp.next]).Nodup ∧
    outIds (inMemRun [] [QOp.add "a" "r" "u" "c" "t0", QOp.next, QOp.next]).2 = ["a", "a"] ∧
    ¬ (outIds (inMemRun [] [QOp.add "a" "r" "u" "c" "t0", QOp.next, QOp.next]).2).Nodup := by
  refine ⟨by decide, rfl, by decide⟩

/-- Claim C1 (amended): for the Redis-backed implementation, over every
operation sequence starting from the empty store in which no job id is added
twice (no re-insertion), the job ids returned by distinct `get_next_pending`
calls are pairwise distinct — each `lpop` removes the returned id from the
pending list. (The in-memory implementation does not remove the returned job,
see the counterexample.) -/
theorem C1_redis_next_pending_ids_distinct (ops : List QOp)
    (h : (addIds ops).Nodup) :
    (outIds (redisRun ⟨[], []⟩ ops).2).Nodup :=
  (redisRun_outIds_nodup ops ⟨[], []⟩ List.nodup_nil h (by simp) (by intro p hp; simp at hp)).1

/-- Witness for C1: two jobs added and three `next_pending` calls; the
returned ids are pairwise distinct. -/
theorem C1_witness :
    (outIds (redisRun ⟨[], []⟩
      [QOp.add "a" "r" "u" "c" "t0", QOp.add "b" "r" "u" "c" "t1",
       QOp.next, QOp.next, QOp.next]).2).Nodup :=
  C1_redis_next_pending_ids_distinct
    [QOp.add "a" "r" "u" "c" "t0", QOp.add "b" "r" "u" "c" "t1",
     QOp.next, QOp.next, QOp.next] (by decide)

end DiarizationCore
